import Mathlib

/-!
Verification of the JSON-RPC TCP server transport core
(`lib/jsonrpc/jsonrpc_server_tcp.c`).

The C code is embedded shallowly: connection and server state become Lean
structures, socket calls become oracle outcomes passed in as parameters,
byte buffers become `List Nat`, and the per-connection / per-server
operations are translated function by function.  External collaborators
that are not part of the source file (the frame parser, request
release, the outstanding-request accounting done by the dispatcher) are
modelled from the specification and marked as such in their doc comments.
-/

namespace Spdk

/-- Modelled from the spec: pool capacity `SPDK_JSONRPC_MAX_CONNS` is a
compile-time constant defined in a header that is not part of the source
file under verification; the concrete value matches the upstream default. -/
def SPDK_JSONRPC_MAX_CONNS : Nat := 64

/-- Modelled from the spec: fixed receive-buffer capacity
`SPDK_JSONRPC_RECV_BUF_SIZE`, defined in a header that is not part of the
source file under verification; the concrete value matches the upstream
default. -/
def SPDK_JSONRPC_RECV_BUF_SIZE : Nat := 32768

/-- A response unit (`struct spdk_jsonrpc_request`): the response payload
buffer, the send cursor (bytes already transmitted) and the remaining
length still to transmit. -/
structure Request where
  send_buf : List Nat
  send_offset : Nat
  send_len : Nat
deriving DecidableEq, Repr

/-- Per-connection state (`struct spdk_jsonrpc_server_conn`).  The receive
buffer is modelled as the list of its filled bytes, so `recv_len` of the C
code is `recv_buf.length` here; bytes beyond the fill length are never
observed by the code.  The outstanding-request counter is an `Int` so that
the never-negative claim is a theorem rather than a typing artifact. -/
structure Conn where
  closed : Bool
  sockfd : Int
  recv_buf : List Nat
  outstanding : Int
  send_queue : List Request
  send_request : Option Request
deriving DecidableEq, Repr

/-- Connection-field initialization performed by `spdk_jsonrpc_server_accept`
on the slot taken from the free list (lines 150-157). -/
def conn_init (fd : Nat) : Conn :=
  { closed := false
    sockfd := (fd : Int)
    recv_buf := []
    outstanding := 0
    send_queue := []
    send_request := none }

/-- Zero-initialized slot as produced by `calloc` in
`spdk_jsonrpc_server_listen`. -/
def zeroConn : Conn :=
  { closed := false
    sockfd := 0
    recv_buf := []
    outstanding := 0
    send_queue := []
    send_request := none }

/-- Modelled from the spec: `spdk_jsonrpc_free_request` lives outside this
source file; per spec section 4.4 releasing a request frees its buffer and
decrements the owning connection's outstanding-request counter. -/
def spdk_jsonrpc_free_request (c : Conn) : Conn :=
  { c with outstanding := c.outstanding - 1 }

/-- `spdk_jsonrpc_server_conn_close` (lines 114-123): set the closed flag;
if the socket handle is still valid, shut it down and store the sentinel. -/
def spdk_jsonrpc_server_conn_close (c : Conn) : Conn :=
  let c1 := { c with closed := true }
  if 0 ≤ c1.sockfd then { c1 with sockfd := -1 } else c1

/-- `spdk_jsonrpc_server_send_response` (lines 261-270): append the request
to the connection's outbound queue under the queue lock. -/
def spdk_jsonrpc_server_send_response (c : Conn) (r : Request) : Conn :=
  { c with send_queue := c.send_queue ++ [r] }

/-- `spdk_jsonrpc_server_dequeue_request` (lines 272-284): pop the head of
the outbound queue under the queue lock, if any. -/
def spdk_jsonrpc_server_dequeue_request (c : Conn) : Conn × Option Request :=
  match c.send_queue with
  | [] => (c, none)
  | r :: rest => ({ c with send_queue := rest }, some r)

/-- Outcome of one `recv` socket call, as seen by the code: a transient
errno (`EAGAIN`/`EWOULDBLOCK`/`EINTR`), any other error, or a successful
return delivering `bytes` (possibly empty, which `recv` reports as 0). -/
inductive RecvOutcome where
  | transient
  | fatal
  | data (bytes : List Nat)
deriving DecidableEq, Repr

/-- `spdk_jsonrpc_server_conn_recv` (lines 220-259).  The external frame
parser `spdk_jsonrpc_parse_request` is passed in as `parse`; per spec
section 6 a positive return value is the number of consumed bytes and the
parse dispatches exactly one frame as a side effect, which (spec section
4.3, modelled here) increments the outstanding-request counter.  A
negative parse result is a malformed frame.  Compaction (`memmove`) of the
unconsumed trailing bytes is `List.drop` on the filled prefix. -/
def spdk_jsonrpc_server_conn_recv (parse : List Nat → Int) (c : Conn)
    (out : RecvOutcome) : Conn × Int :=
  match out with
  | RecvOutcome.transient => (c, 0)
  | RecvOutcome.fatal => (c, -1)
  | RecvOutcome.data bytes =>
    if bytes.length = 0 then
      (c, -1)
    else
      let c1 : Conn := { c with recv_buf := c.recv_buf ++ bytes }
      let rc : Int := parse c1.recv_buf
      if rc < 0 then
        (c1, -1)
      else if 0 < rc then
        ({ c1 with
            recv_buf := c1.recv_buf.drop rc.toNat
            outstanding := c1.outstanding + 1 }, 0)
      else
        (c1, 0)

/-- Outcome of one `send` socket call: transient errno, fatal errno, or a
successful return accepting `k` bytes of the submitted range. -/
inductive SendOutcome where
  | transient
  | fatal
  | accepted (k : Nat)
deriving DecidableEq, Repr

/-- Lines 298-306 of `spdk_jsonrpc_server_conn_send`: take the current
in-flight request, dequeuing from the outbound queue if the slot is empty. -/
def conn_take_request (c : Conn) : Conn × Option Request :=
  match c.send_request with
  | some r => (c, some r)
  | none =>
    match spdk_jsonrpc_server_dequeue_request c with
    | (c1, req) => ({ c1 with send_request := req }, req)

/-- The `more:` loop of `spdk_jsonrpc_server_conn_send` (lines 287-335),
with an explicit fuel argument for termination; each iteration consumes at
most one `send` outcome from `outs` (an exhausted outcome list behaves
like a would-block result).  Returns the new connection state, the C
return value, and the bytes handed to the transport during this step. -/
def conn_send_loop : Nat → Conn → List SendOutcome → Conn × Int × List Nat
  | 0, c, _ => (c, 0, [])
  | fuel + 1, c, outs =>
    if c.outstanding = 0 then (c, 0, [])
    else
      match conn_take_request c with
      | (c1, none) => (c1, 0, [])
      | (c1, some request) =>
        if request.send_len = 0 then
          conn_send_loop fuel
            (spdk_jsonrpc_free_request { c1 with send_request := none }) outs
        else
          match outs with
          | [] => (c1, 0, [])
          | SendOutcome.transient :: _ => (c1, 0, [])
          | SendOutcome.fatal :: _ => (c1, -1, [])
          | SendOutcome.accepted k :: rest =>
            let seg := (request.send_buf.drop request.send_offset).take k
            let request1 : Request :=
              { request with
                  send_offset := request.send_offset + k
                  send_len := request.send_len - k }
            if request1.send_len = 0 then
              match conn_send_loop fuel
                  (spdk_jsonrpc_free_request { c1 with send_request := none })
                  rest with
              | (c3, rc, more) => (c3, rc, seg ++ more)
            else
              ({ c1 with send_request := some request1 }, 0, seg)

/-- `spdk_jsonrpc_server_conn_send`: run the `more:` loop with enough fuel
for the worst case (one in-flight slot plus the whole queue plus the final
re-check). -/
def spdk_jsonrpc_server_conn_send (c : Conn) (outs : List SendOutcome) :
    Conn × Int × List Nat :=
  conn_send_loop (c.send_queue.length + 2) c outs

/-- The discard loop of `spdk_jsonrpc_server_poll` for a closed connection
(lines 359-361): repeatedly dequeue and release queued responses. -/
def drain_requests : Nat → Conn → Conn
  | 0, c => c
  | fuel + 1, c =>
    match spdk_jsonrpc_server_dequeue_request c with
    | (c1, some _) => drain_requests fuel (spdk_jsonrpc_free_request c1)
    | (_, none) => c

/-- Lines 344-366 of `spdk_jsonrpc_server_poll`, for one closed connection:
discard the in-flight request, drain and discard the outbound queue, and
report whether the outstanding-request check passes so that the slot is
reaped (`spdk_jsonrpc_server_conn_remove` is called exactly when the
returned flag is true). -/
def spdk_jsonrpc_server_poll_drain (c : Conn) : Conn × Bool :=
  let c1 :=
    match c.send_request with
    | some _ => spdk_jsonrpc_free_request { c with send_request := none }
    | none => c
  let c2 := drain_requests c1.send_queue.length c1
  (c2, c2.outstanding == 0)

/-- The closed-connection branch guard of the reap loop (line 344). -/
def poll_handle_closed (c : Conn) : Conn × Bool :=
  if c.closed then spdk_jsonrpc_server_poll_drain c else (c, false)

/-- Lines 375-391 of `spdk_jsonrpc_server_poll`, for one non-closed
connection: attempt the send step, closing the connection on a hard
failure; otherwise attempt the receive step, closing on a hard failure. -/
def poll_conn_step (parse : List Nat → Int) (c : Conn)
    (souts : List SendOutcome) (rout : RecvOutcome) : Conn :=
  match spdk_jsonrpc_server_conn_send c souts with
  | (c1, rc1, _) =>
    if rc1 ≠ 0 then spdk_jsonrpc_server_conn_close c1
    else
      match spdk_jsonrpc_server_conn_recv parse c1 rout with
      | (c2, rc2) => if rc2 ≠ 0 then spdk_jsonrpc_server_conn_close c2 else c2

/-- Index of a slot in the fixed `conns_array` pool. -/
abbrev ConnIdx := Fin SPDK_JSONRPC_MAX_CONNS

/-- Server state (`struct spdk_jsonrpc_server`): the two intrusive lists
(`free_conns` and the active `conns` list) hold slot indices, and
`conns_array` holds the per-slot connection state. -/
structure Server where
  free_conns : List ConnIdx
  conns : List ConnIdx
  conns_array : ConnIdx → Conn

/-- `spdk_jsonrpc_server_listen` (lines 37-98), after the `calloc` and the
loop inserting every slot into the free list; the socket/bind/listen setup
has no effect on the pool state modelled here. -/
def spdk_jsonrpc_server_listen : Server :=
  { free_conns := List.finRange SPDK_JSONRPC_MAX_CONNS
    conns := []
    conns_array := fun _ => zeroConn }

/-- Outcome of one `accept` socket call; on success the new descriptor is
`fd` and `fcntl_ok` tells whether the subsequent switch to non-blocking
mode succeeded. -/
inductive AcceptOutcome where
  | ok (fd : Nat) (fcntl_ok : Bool)
  | transient
  | fatal
deriving DecidableEq, Repr

/-- `spdk_jsonrpc_server_accept` (lines 139-177): on a successful accept,
initialize the first free slot and move it to the active list; if setting
non-blocking mode fails, close the new socket and leave the slot on the
free list; a transient errno is a silent no-op; any other errno fails the
step.  The code asserts the free list is non-empty (the poll loop checks
this before calling); the empty case is modelled defensively as a failed
step with no state change. -/
def spdk_jsonrpc_server_accept (s : Server) (out : AcceptOutcome) :
    Server × Int :=
  match out with
  | AcceptOutcome.ok fd fcntl_ok =>
    match s.free_conns with
    | [] => (s, -1)
    | i :: rest =>
      let s1 : Server :=
        { s with conns_array := Function.update s.conns_array i (conn_init fd) }
      if fcntl_ok then
        ({ s1 with free_conns := rest, conns := s1.conns ++ [i] }, 0)
      else
        (s1, -1)
  | AcceptOutcome.transient => (s, 0)
  | AcceptOutcome.fatal => (s, -1)

/-- `spdk_jsonrpc_server_conn_remove` (lines 125-137): close the
connection, then move its slot from the active list back to the head of
the free list. -/
def spdk_jsonrpc_server_conn_remove (s : Server) (i : ConnIdx) : Server :=
  let c := spdk_jsonrpc_server_conn_close (s.conns_array i)
  { s with
      conns_array := Function.update s.conns_array i c
      conns := s.conns.erase i
      free_conns := i :: s.free_conns }

/-- The reap phase of `spdk_jsonrpc_server_poll` (lines 343-368):
`TAILQ_FOREACH_SAFE` over the active list; every closed connection is
drained, and reaped once its outstanding-request counter is zero.  The
iteration list is the active list as it was when the loop started. -/
def poll_reap : Server → List ConnIdx → Server
  | s, [] => s
  | s, i :: rest =>
    let c := s.conns_array i
    if c.closed then
      match spdk_jsonrpc_server_poll_drain c with
      | (c1, rm) =>
        let s1 : Server :=
          { s with conns_array := Function.update s.conns_array i c1 }
        if rm then poll_reap (spdk_jsonrpc_server_conn_remove s1 i) rest
        else poll_reap s1 rest
    else poll_reap s rest

/-- The I/O phase of `spdk_jsonrpc_server_poll` (lines 375-391):
`TAILQ_FOREACH` over the active list, skipping closed connections and
running `poll_conn_step` on the rest.  Alongside the new server state it
returns, as specification ghost output, the list of `(slot, connection
state at the moment its socket I/O was attempted)` pairs — one entry per
connection on which a `send`/`recv` socket call was issued. -/
def poll_io (parse : List Nat → Int) (souts : ConnIdx → List SendOutcome)
    (routs : ConnIdx → RecvOutcome) :
    Server → List ConnIdx → Server × List (ConnIdx × Conn)
  | s, [] => (s, [])
  | s, i :: rest =>
    let c := s.conns_array i
    if c.closed then poll_io parse souts routs s rest
    else
      let c1 := poll_conn_step parse c (souts i) (routs i)
      let s1 : Server :=
        { s with conns_array := Function.update s.conns_array i c1 }
      match poll_io parse souts routs s1 rest with
      | (s2, ops) => (s2, (i, c) :: ops)

/-- `spdk_jsonrpc_server_poll` (lines 337-394): reap phase, then at most
one accept if the free list is non-empty, then the send/receive phase
over the active list.  The ghost socket-operation list of the I/O phase is
passed through. -/
def spdk_jsonrpc_server_poll (s : Server) (aout : AcceptOutcome)
    (parse : List Nat → Int) (souts : ConnIdx → List SendOutcome)
    (routs : ConnIdx → RecvOutcome) : Server × List (ConnIdx × Conn) :=
  let s1 := poll_reap s s.conns
  let s2 :=
    if s1.free_conns.isEmpty then s1
    else (spdk_jsonrpc_server_accept s1 aout).1
  poll_io parse souts routs s2 s2.conns

/-- One externally visible operation on the server state: an accept
attempt, closing one connection, a response submission from the dispatch
side, or a full poll step. -/
inductive ServerStep : Server → Server → Prop
  | accept (s : Server) (out : AcceptOutcome) :
      ServerStep s (spdk_jsonrpc_server_accept s out).1
  | close (s : Server) (i : ConnIdx) :
      ServerStep s
        { s with
            conns_array :=
              Function.update s.conns_array i
                (spdk_jsonrpc_server_conn_close (s.conns_array i)) }
  | submit (s : Server) (i : ConnIdx) (r : Request) :
      ServerStep s
        { s with
            conns_array :=
              Function.update s.conns_array i
                (spdk_jsonrpc_server_send_response (s.conns_array i) r) }
  | poll (s : Server) (aout : AcceptOutcome) (parse : List Nat → Int)
      (souts : ConnIdx → List SendOutcome) (routs : ConnIdx → RecvOutcome) :
      ServerStep s (spdk_jsonrpc_server_poll s aout parse souts routs).1

/-- Server states reachable from construction by the modelled operations. -/
inductive ServerReachable : Server → Prop
  | listen : ServerReachable spdk_jsonrpc_server_listen
  | step {s s' : Server} :
      ServerReachable s → ServerStep s s' → ServerReachable s'

/-- The still-untransmitted bytes of a request: its buffer past the send
cursor. -/
def Request.rest (r : Request) : List Nat := r.send_buf.drop r.send_offset

/-- Cursor consistency for a request: the remaining length is exactly what
is left of the buffer after the send cursor.  This holds for freshly
submitted responses and is preserved by every partial send. -/
def Request.wf (r : Request) : Prop :=
  r.send_offset + r.send_len = r.send_buf.length

/-- All requests held by a connection (queued or in-flight) are cursor
consistent. -/
def Conn.wfReqs (c : Conn) : Prop :=
  (∀ r ∈ c.send_queue, Request.wf r) ∧
    match c.send_request with
    | some r => Request.wf r
    | none => True

/-- The outbound byte stream a connection still owes the peer: the rest of
the in-flight request followed by the queued responses in FIFO order. -/
def Conn.pending (c : Conn) : List Nat :=
  (match c.send_request with
   | some r => Request.rest r
   | none => []) ++ (c.send_queue.map Request.rest).flatten

/-- The number of requests a connection currently holds in its outbound
queue and in-flight slot; the outstanding counter exceeds it by exactly
the number of frames still with the external handler. -/
def connAccount (c : Conn) : Int :=
  (c.send_queue.length : Int) + (if c.send_request.isSome then 1 else 0)

/-- Every response held by the connection still has bytes to transmit (a
response payload is never empty in this protocol). -/
def Conn.posReqs (c : Conn) : Prop :=
  (∀ x ∈ c.send_queue, 0 < x.send_len) ∧
    match c.send_request with
    | some x => 0 < x.send_len
    | none => True

/-- An event on a connection's outbound side: a response submission (from
any execution context) or one reactor send step with its per-call
transport outcomes. -/
inductive SEvent where
  | submit (r : Request)
  | sendStep (outs : List SendOutcome)
deriving DecidableEq, Repr

/-- Run a sequence of submission/send-step events on a connection,
collecting the bytes handed to the transport in order. -/
def run_events : Conn → List SEvent → Conn × List Nat
  | c, [] => (c, [])
  | c, SEvent.submit r :: evs =>
    run_events (spdk_jsonrpc_server_send_response c r) evs
  | c, SEvent.sendStep outs :: evs =>
    match spdk_jsonrpc_server_conn_send c outs with
    | (c1, _, out) =>
      match run_events c1 evs with
      | (c2, wire) => (c2, out ++ wire)

/-- The responses submitted by an event sequence, in submission order. -/
def submittedReqs : List SEvent → List Request
  | [] => []
  | SEvent.submit r :: evs => r :: submittedReqs evs
  | SEvent.sendStep _ :: evs => submittedReqs evs

/-- A connection together with specification ghost state: the number of
frames dispatched to the external handler whose response has not yet been
submitted back.  The ghost is needed to relate the outstanding-request
counter to the queue/in-flight contents. -/
structure CState where
  conn : Conn
  handlerPending : Nat
deriving Repr

/-- One operation on a single connection, as performed by the code: a
receive step (whose successful parse dispatches a frame, raising the ghost
handler count), a send step, a response submission (the dispatcher calls
it once per dispatched frame, so it requires a positive ghost count — the
caller contract of spec section 6), a close, and the poll loop's
closed-connection drain. -/
inductive ConnStep : CState → CState → Prop
  | recv (c : Conn) (g : Nat) (parse : List Nat → Int) (out : RecvOutcome) :
      ConnStep ⟨c, g⟩
        ⟨(spdk_jsonrpc_server_conn_recv parse c out).1,
          g + ((spdk_jsonrpc_server_conn_recv parse c out).1.outstanding
                - c.outstanding).toNat⟩
  | send (c : Conn) (g : Nat) (outs : List SendOutcome) :
      ConnStep ⟨c, g⟩ ⟨(spdk_jsonrpc_server_conn_send c outs).1, g⟩
  | submit (c : Conn) (g : Nat) (r : Request) (h : 0 < g) :
      ConnStep ⟨c, g⟩ ⟨spdk_jsonrpc_server_send_response c r, g - 1⟩
  | close (c : Conn) (g : Nat) :
      ConnStep ⟨c, g⟩ ⟨spdk_jsonrpc_server_conn_close c, g⟩
  | drain (c : Conn) (g : Nat) :
      ConnStep ⟨c, g⟩ ⟨(poll_handle_closed c).1, g⟩

/-- Connection states reachable from the accept-time initialization. -/
inductive ConnReachable : CState → Prop
  | init (fd : Nat) : ConnReachable ⟨conn_init fd, 0⟩
  | step {s s' : CState} : ConnReachable s → ConnStep s s' → ConnReachable s'

/-- Accounting invariant tying the outstanding-request counter to the
ghost handler count, the queue length and the in-flight slot. -/
def CInv (s : CState) : Prop :=
  s.conn.outstanding =
    (s.handlerPending : Int) + s.conn.send_queue.length +
      (if s.conn.send_request.isSome then 1 else 0)

/-- Frame recognizer used as a concrete external parser in counterexamples:
a frame is a byte run terminated by the byte 10, and the parse consumes the
first complete frame, if any. -/
def parseNl (buf : List Nat) : Int :=
  match buf.findIdx? (fun b => b == 10) with
  | some i => (i : Int) + 1
  | none => 0

/-- Structural invariant of the server pool: the free list and the active
list together are a permutation of all slot indices (each slot on exactly
one list), and every active connection has the sentinel socket -1 when
closed and a valid non-negative socket when open. -/
def SInv (s : Server) : Prop :=
  ((s.free_conns ++ s.conns).Perm
    (List.finRange SPDK_JSONRPC_MAX_CONNS)) ∧
  ∀ i ∈ s.conns,
    (((s.conns_array i).closed = true → (s.conns_array i).sockfd = -1) ∧
     ((s.conns_array i).closed = false → 0 ≤ (s.conns_array i).sockfd))

/-- The first pool slot index. -/
def idx0 : ConnIdx := ⟨0, by decide⟩

/-- A live connection whose receive buffer is completely full, so the
available (unfilled) space for the next read is zero. -/
def fullConn : Conn :=
  { closed := false
    sockfd := 4
    recv_buf := List.replicate SPDK_JSONRPC_RECV_BUF_SIZE 0
    outstanding := 0
    send_queue := []
    send_request := none }

theorem conn_send_loop_outstanding_zero (fuel : Nat) (c : Conn)
    (outs : List SendOutcome) (h : c.outstanding = 0) :
    conn_send_loop fuel c outs = (c, 0, []) := by
  cases fuel with
  | zero => rfl
  | succ n => simp [conn_send_loop, h]

theorem conn_send_outstanding_zero (c : Conn) (outs : List SendOutcome)
    (h : c.outstanding = 0) :
    spdk_jsonrpc_server_conn_send c outs = (c, 0, []) :=
  conn_send_loop_outstanding_zero _ c outs h

theorem conn_close_eq (c : Conn) :
    spdk_jsonrpc_server_conn_close c =
      if 0 ≤ c.sockfd then { c with closed := true, sockfd := -1 }
      else { c with closed := true } := rfl

theorem conn_close_closed (c : Conn) :
    (spdk_jsonrpc_server_conn_close c).closed = true := by
  rw [conn_close_eq]
  split <;> rfl

/-- C7: closing a connection is idempotent: on an already-closed connection
(closed flag set, socket already the sentinel -1) it changes nothing; close
never modifies the outstanding-request counter, queue, in-flight slot or
receive buffer; the closed flag only ever becomes true, and once the socket
handle is -1 it stays -1. -/
theorem conn_close_idempotent (c : Conn) :
    ((spdk_jsonrpc_server_conn_close c).closed = true) ∧
    ((spdk_jsonrpc_server_conn_close c).outstanding = c.outstanding) ∧
    ((spdk_jsonrpc_server_conn_close c).send_queue = c.send_queue) ∧
    ((spdk_jsonrpc_server_conn_close c).send_request = c.send_request) ∧
    ((spdk_jsonrpc_server_conn_close c).recv_buf = c.recv_buf) ∧
    (spdk_jsonrpc_server_conn_close (spdk_jsonrpc_server_conn_close c)
      = spdk_jsonrpc_server_conn_close c) ∧
    (c.closed = true → c.sockfd = -1 → spdk_jsonrpc_server_conn_close c = c) ∧
    (c.sockfd = -1 → (spdk_jsonrpc_server_conn_close c).sockfd = -1) := by
  obtain ⟨cl, fd, rb, os, q, sr⟩ := c
  by_cases h : (0 : Int) ≤ fd
  · have hneg : ¬ (0 : Int) ≤ -1 := by decide
    refine ⟨?_, ?_, ?_, ?_, ?_, ?_, ?_, ?_⟩ <;>
      simp [conn_close_eq, h, hneg]
    intro _ hfd
    omega
  · refine ⟨?_, ?_, ?_, ?_, ?_, ?_, ?_, ?_⟩ <;>
      simp [conn_close_eq, h]
    intro hcl _
    exact hcl

/-- Witness for `conn_close_idempotent`: on the concrete already-closed
connection the close operation is the identity. -/
theorem conn_close_idempotent_witness :
    spdk_jsonrpc_server_conn_close ⟨true, -1, [], 0, [], none⟩
      = (⟨true, -1, [], 0, [], none⟩ : Conn) :=
  (conn_close_idempotent ⟨true, -1, [], 0, [], none⟩).2.2.2.2.2.2.1 rfl rfl

theorem conn_recv_data_nil (parse : List Nat → Int) (c : Conn) :
    spdk_jsonrpc_server_conn_recv parse c (RecvOutcome.data []) = (c, -1) :=
  rfl

theorem conn_recv_data_neg (parse : List Nat → Int) (c : Conn)
    (bytes : List Nat) (h0 : ¬ bytes.length = 0)
    (h : parse (c.recv_buf ++ bytes) < 0) :
    spdk_jsonrpc_server_conn_recv parse c (RecvOutcome.data bytes)
      = ({ c with recv_buf := c.recv_buf ++ bytes }, -1) := by
  simp [spdk_jsonrpc_server_conn_recv, h0, h]

theorem conn_recv_data_none (parse : List Nat → Int) (c : Conn)
    (bytes : List Nat) (h0 : ¬ bytes.length = 0)
    (h : parse (c.recv_buf ++ bytes) = 0) :
    spdk_jsonrpc_server_conn_recv parse c (RecvOutcome.data bytes)
      = ({ c with recv_buf := c.recv_buf ++ bytes }, 0) := by
  simp [spdk_jsonrpc_server_conn_recv, h0, h]

theorem conn_recv_data_pos (parse : List Nat → Int) (c : Conn)
    (bytes : List Nat) (h0 : ¬ bytes.length = 0)
    (h : 0 < parse (c.recv_buf ++ bytes)) :
    spdk_jsonrpc_server_conn_recv parse c (RecvOutcome.data bytes)
      = ({ c with
            recv_buf := (c.recv_buf ++ bytes).drop
              (parse (c.recv_buf ++ bytes)).toNat
            outstanding := c.outstanding + 1 }, 0) := by
  have hnneg : ¬ parse (c.recv_buf ++ bytes) < 0 := by omega
  simp [spdk_jsonrpc_server_conn_recv, h0, hnneg, h]

/-- C9 (confirmed): a receive step keeps the fill length within the buffer
capacity, and on a successful parse of `rc` bytes the compaction keeps
exactly the unconsumed trailing bytes, in order, at the front of the
buffer, with the fill length reduced accordingly. -/
theorem conn_recv_bounds_compaction (parse : List Nat → Int) (c : Conn)
    (out : RecvOutcome)
    (hlen : c.recv_buf.length ≤ SPDK_JSONRPC_RECV_BUF_SIZE)
    (havail : ∀ bytes, out = RecvOutcome.data bytes →
      bytes.length ≤ SPDK_JSONRPC_RECV_BUF_SIZE - c.recv_buf.length) :
    ((spdk_jsonrpc_server_conn_recv parse c out).1.recv_buf.length
        ≤ SPDK_JSONRPC_RECV_BUF_SIZE) ∧
    (∀ bytes, out = RecvOutcome.data bytes → 0 < bytes.length →
      ∀ rc : Int, parse (c.recv_buf ++ bytes) = rc → 0 < rc →
        rc.toNat ≤ c.recv_buf.length + bytes.length →
        (spdk_jsonrpc_server_conn_recv parse c out).1.recv_buf
            = (c.recv_buf ++ bytes).drop rc.toNat ∧
          (spdk_jsonrpc_server_conn_recv parse c out).1.recv_buf.length
            = c.recv_buf.length + bytes.length - rc.toNat) := by
  cases out with
  | transient => exact ⟨hlen, by intro bytes h; cases h⟩
  | fatal => exact ⟨hlen, by intro bytes h; cases h⟩
  | data bytes =>
    have hav := havail bytes rfl
    by_cases h0 : bytes.length = 0
    · have hnil : bytes = [] := List.length_eq_zero.mp h0
      subst hnil
      rw [conn_recv_data_nil]
      exact ⟨hlen, by intro bytes' heq hpos; cases heq; omega⟩
    · rcases lt_trichotomy (parse (c.recv_buf ++ bytes)) 0 with hneg | hzero | hpos
      · rw [conn_recv_data_neg parse c bytes h0 hneg]
        constructor
        · simp
          omega
        · intro bytes' heq _ rc hrc hrcpos _
          cases heq
          rw [hrc] at hneg
          omega
      · rw [conn_recv_data_none parse c bytes h0 hzero]
        constructor
        · simp
          omega
        · intro bytes' heq _ rc hrc hrcpos _
          cases heq
          rw [hrc] at hzero
          omega
      · rw [conn_recv_data_pos parse c bytes h0 hpos]
        constructor
        · simp
          omega
        · intro bytes' heq _ rc hrc _ hle
          cases heq
          subst hrc
          constructor
          · rfl
          · simp

/-- Witness for `conn_recv_bounds_compaction`: concrete receive of 4 bytes
containing one 2-byte frame on a fresh connection. -/
theorem conn_recv_bounds_compaction_witness :
    (spdk_jsonrpc_server_conn_recv parseNl (conn_init 4)
        (RecvOutcome.data [1, 10, 2, 10])).1.recv_buf = [2, 10] := by
  have h := conn_recv_bounds_compaction parseNl (conn_init 4)
    (RecvOutcome.data [1, 10, 2, 10]) (by decide)
    (by intro bytes heq; cases heq; decide)
  have h2 := (h.2 [1, 10, 2, 10] rfl (by decide) 2 (by decide) (by decide)
    (by decide)).1
  simpa using h2

/-- C6 counterexample: on a connection whose receive buffer is completely
full (available space zero), a zero-length read result is still treated as
peer shutdown: the receive step returns -1 and the poll loop then closes
the connection, contrary to the claimed exception. -/
theorem recv_zero_read_buffull_closes :
    (SPDK_JSONRPC_RECV_BUF_SIZE - fullConn.recv_buf.length = 0) ∧
    (spdk_jsonrpc_server_conn_recv parseNl fullConn (RecvOutcome.data [])
      = (fullConn, -1)) ∧
    (poll_conn_step parseNl fullConn [] (RecvOutcome.data [])).closed
      = true := by
  refine ⟨?_, conn_recv_data_nil _ _, ?_⟩
  · rw [show fullConn.recv_buf = List.replicate SPDK_JSONRPC_RECV_BUF_SIZE 0
      from rfl, List.length_replicate]
    exact Nat.sub_self _
  · have hsend := conn_send_outstanding_zero fullConn [] rfl
    simp [poll_conn_step, hsend, conn_recv_data_nil, conn_close_closed]

/-- C6 as amended: a zero-length read result is always treated as peer
shutdown — the receive step reports a hard failure and the poll loop
transitions the connection to closed — including when the available
receive-buffer space was already zero. -/
theorem recv_zero_read_always_closes (parse : List Nat → Int) (c : Conn)
    (hout : c.outstanding = 0) :
    spdk_jsonrpc_server_conn_recv parse c (RecvOutcome.data []) = (c, -1) ∧
    (poll_conn_step parse c [] (RecvOutcome.data [])).closed = true := by
  have hsend := conn_send_outstanding_zero c [] hout
  constructor
  · exact conn_recv_data_nil _ _
  · simp [poll_conn_step, hsend, conn_recv_data_nil, conn_close_closed]

/-- Witness for `recv_zero_read_always_closes` at a freshly accepted
connection. -/
theorem recv_zero_read_always_closes_witness :
    spdk_jsonrpc_server_conn_recv parseNl (conn_init 5) (RecvOutcome.data [])
        = (conn_init 5, -1) ∧
      (poll_conn_step parseNl (conn_init 5) [] (RecvOutcome.data [])).closed
        = true :=
  recv_zero_read_always_closes parseNl (conn_init 5) rfl

/-- C3 counterexample: a single read delivering two complete frames
(`[1,10]` and `[2,10]` under the newline recognizer `parseNl`) dispatches
only one request in the receive step — the outstanding count rises by one,
not two, and the second complete frame is still sitting in the buffer when
the step returns. -/
theorem recv_two_frames_single_dispatch :
    ((spdk_jsonrpc_server_conn_recv parseNl (conn_init 4)
        (RecvOutcome.data [1, 10, 2, 10])).1.outstanding
      = (conn_init 4).outstanding + 1) ∧
    (0 < parseNl ((spdk_jsonrpc_server_conn_recv parseNl (conn_init 4)
        (RecvOutcome.data [1, 10, 2, 10])).1.recv_buf)) ∧
    ¬ ((spdk_jsonrpc_server_conn_recv parseNl (conn_init 4)
        (RecvOutcome.data [1, 10, 2, 10])).1.outstanding
      = (conn_init 4).outstanding + 2) := by
  decide

/-- C3 as amended: a receive step dispatches at most one frame, no matter
how many complete frames the read left in the buffer; the remainder (which
may itself be a complete frame) is kept, compacted to the front of the
buffer, and no parse is attempted again until a later receive step — in
particular a would-block read leaves the connection unchanged and
dispatches nothing. -/
theorem recv_single_dispatch_per_step (parse : List Nat → Int) (c : Conn)
    (out : RecvOutcome) :
    ((spdk_jsonrpc_server_conn_recv parse c out).1.outstanding
        ≤ c.outstanding + 1) ∧
    (∀ bytes, out = RecvOutcome.data bytes → 0 < bytes.length →
      ∀ rc : Int, parse (c.recv_buf ++ bytes) = rc → 0 < rc →
        (spdk_jsonrpc_server_conn_recv parse c out).1.recv_buf
          = (c.recv_buf ++ bytes).drop rc.toNat) ∧
    (spdk_jsonrpc_server_conn_recv parse c RecvOutcome.transient = (c, 0)) := by
  refine ⟨?_, ?_, rfl⟩
  · cases out with
    | transient => simp [spdk_jsonrpc_server_conn_recv]
    | fatal => simp [spdk_jsonrpc_server_conn_recv]
    | data bytes =>
      by_cases h0 : bytes.length = 0
      · have hnil : bytes = [] := List.length_eq_zero.mp h0
        subst hnil
        rw [conn_recv_data_nil]
        change c.outstanding ≤ c.outstanding + 1
        omega
      · rcases lt_trichotomy (parse (c.recv_buf ++ bytes)) 0 with hneg | hzero | hpos
        · rw [conn_recv_data_neg parse c bytes h0 hneg]
          change c.outstanding ≤ c.outstanding + 1
          omega
        · rw [conn_recv_data_none parse c bytes h0 hzero]
          change c.outstanding ≤ c.outstanding + 1
          omega
        · rw [conn_recv_data_pos parse c bytes h0 hpos]
  · intro bytes heq hpos rc hrc hrcpos
    cases heq
    subst hrc
    have h0 : ¬ bytes.length = 0 := by omega
    rw [conn_recv_data_pos parse c bytes h0 hrcpos]

theorem conn_set_slot_none (c : Conn) (h : c.send_request = none) :
    { c with send_request := none } = c := by
  obtain ⟨cl, fd, rb, os, q, sr⟩ := c
  simp_all

theorem csl_deq (n : Nat) (c : Conn) (outs : List SendOutcome) (r : Request)
    (rest : List Request) (h0 : ¬ c.outstanding = 0)
    (hsr : c.send_request = none) (hq : c.send_queue = r :: rest) :
    conn_send_loop (n + 1) c outs
      = conn_send_loop (n + 1)
          { c with send_queue := rest, send_request := some r } outs := by
  conv_lhs => rw [conn_send_loop]
  conv_rhs => rw [conn_send_loop]
  simp [h0, conn_take_request, hsr, hq, spdk_jsonrpc_server_dequeue_request]

theorem csl_slot_len0 (n : Nat) (c : Conn) (outs : List SendOutcome)
    (r : Request) (h0 : ¬ c.outstanding = 0) (hsr : c.send_request = some r)
    (hlen : r.send_len = 0) :
    conn_send_loop (n + 1) c outs
      = conn_send_loop n
          (spdk_jsonrpc_free_request { c with send_request := none }) outs := by
  rw [conn_send_loop]
  simp [h0, conn_take_request, hsr, hlen]

theorem csl_slot_empty (n : Nat) (c : Conn) (r : Request)
    (h0 : ¬ c.outstanding = 0) (hsr : c.send_request = some r)
    (hlen : ¬ r.send_len = 0) :
    conn_send_loop (n + 1) c [] = (c, 0, []) := by
  rw [conn_send_loop]
  simp [h0, conn_take_request, hsr, hlen]

theorem csl_slot_transient (n : Nat) (c : Conn) (r : Request)
    (t : List SendOutcome) (h0 : ¬ c.outstanding = 0)
    (hsr : c.send_request = some r) (hlen : ¬ r.send_len = 0) :
    conn_send_loop (n + 1) c (SendOutcome.transient :: t) = (c, 0, []) := by
  rw [conn_send_loop]
  simp [h0, conn_take_request, hsr, hlen]

theorem csl_slot_fatal (n : Nat) (c : Conn) (r : Request)
    (t : List SendOutcome) (h0 : ¬ c.outstanding = 0)
    (hsr : c.send_request = some r) (hlen : ¬ r.send_len = 0) :
    conn_send_loop (n + 1) c (SendOutcome.fatal :: t) = (c, -1, []) := by
  rw [conn_send_loop]
  simp [h0, conn_take_request, hsr, hlen]

theorem csl_slot_accept_keep (n : Nat) (c : Conn) (r : Request) (k : Nat)
    (t : List SendOutcome) (h0 : ¬ c.outstanding = 0)
    (hsr : c.send_request = some r) (hlen : ¬ r.send_len = 0)
    (hk : ¬ r.send_len - k = 0) :
    conn_send_loop (n + 1) c (SendOutcome.accepted k :: t)
      = ({ c with
            send_request := some
              { r with
                  send_offset := r.send_offset + k
                  send_len := r.send_len - k } }, 0,
          (r.send_buf.drop r.send_offset).take k) := by
  rw [conn_send_loop]
  simp [h0, conn_take_request, hsr, hlen, hk]

theorem csl_slot_accept_full (n : Nat) (c : Conn) (r : Request) (k : Nat)
    (t : List SendOutcome) (h0 : ¬ c.outstanding = 0)
    (hsr : c.send_request = some r) (hlen : ¬ r.send_len = 0)
    (hk : r.send_len - k = 0) :
    conn_send_loop (n + 1) c (SendOutcome.accepted k :: t)
      = ((conn_send_loop n
            (spdk_jsonrpc_free_request { c with send_request := none }) t).1,
         (conn_send_loop n
            (spdk_jsonrpc_free_request { c with send_request := none }) t).2.1,
         (r.send_buf.drop r.send_offset).take k
           ++ (conn_send_loop n
                (spdk_jsonrpc_free_request { c with send_request := none })
                t).2.2) := by
  rw [conn_send_loop]
  simp [h0, conn_take_request, hsr, hlen, hk]

theorem csl_noslot_empty (n : Nat) (c : Conn) (outs : List SendOutcome)
    (h0 : ¬ c.outstanding = 0) (hsr : c.send_request = none)
    (hq : c.send_queue = []) :
    conn_send_loop (n + 1) c outs = (c, 0, []) := by
  rw [conn_send_loop]
  simp [h0, conn_take_request, hsr, hq, spdk_jsonrpc_server_dequeue_request]
  obtain ⟨cl, fd, rb, os, q, sr⟩ := c
  simp_all

theorem Request.rest_length (r : Request) (h : Request.wf r) :
    (Request.rest r).length = r.send_len := by
  unfold Request.rest
  unfold Request.wf at h
  rw [List.length_drop]
  omega

theorem wfReqs_slot (c : Conn) (r : Request) (hwf : Conn.wfReqs c)
    (hsr : c.send_request = some r) : Request.wf r := by
  have h2 := hwf.2
  rw [hsr] at h2
  exact h2

theorem wfReqs_free_slot (c : Conn) (hwf : Conn.wfReqs c) :
    Conn.wfReqs (spdk_jsonrpc_free_request { c with send_request := none }) :=
  ⟨hwf.1, trivial⟩

theorem conn_send_loop_fields (fuel : Nat) :
    ∀ (c : Conn) (outs : List SendOutcome),
      ((conn_send_loop fuel c outs).1.closed = c.closed) ∧
      ((conn_send_loop fuel c outs).1.sockfd = c.sockfd) ∧
      ((conn_send_loop fuel c outs).1.recv_buf = c.recv_buf) := by
  induction fuel with
  | zero => exact fun c outs => ⟨rfl, rfl, rfl⟩
  | succ n ih =>
    have hslot : ∀ (c : Conn) (outs : List SendOutcome) (r : Request),
        ¬ c.outstanding = 0 → c.send_request = some r →
        ((conn_send_loop (n + 1) c outs).1.closed = c.closed) ∧
        ((conn_send_loop (n + 1) c outs).1.sockfd = c.sockfd) ∧
        ((conn_send_loop (n + 1) c outs).1.recv_buf = c.recv_buf) := by
      intro c outs r h0 hsr
      by_cases hlen : r.send_len = 0
      · rw [csl_slot_len0 n c outs r h0 hsr hlen]
        have h := ih (spdk_jsonrpc_free_request { c with send_request := none })
          outs
        simpa [spdk_jsonrpc_free_request] using h
      · cases outs with
        | nil =>
          rw [csl_slot_empty n c r h0 hsr hlen]
          exact ⟨rfl, rfl, rfl⟩
        | cons o t =>
          cases o with
          | transient =>
            rw [csl_slot_transient n c r t h0 hsr hlen]
            exact ⟨rfl, rfl, rfl⟩
          | fatal =>
            rw [csl_slot_fatal n c r t h0 hsr hlen]
            exact ⟨rfl, rfl, rfl⟩
          | accepted k =>
            by_cases hk : r.send_len - k = 0
            · rw [csl_slot_accept_full n c r k t h0 hsr hlen hk]
              have h := ih
                (spdk_jsonrpc_free_request { c with send_request := none }) t
              simpa [spdk_jsonrpc_free_request] using h
            · rw [csl_slot_accept_keep n c r k t h0 hsr hlen hk]
              exact ⟨rfl, rfl, rfl⟩
    intro c outs
    by_cases h0 : c.outstanding = 0
    · rw [conn_send_loop_outstanding_zero (n + 1) c outs h0]
      exact ⟨rfl, rfl, rfl⟩
    · cases hsr : c.send_request with
      | some r => exact hslot c outs r h0 hsr
      | none =>
        cases hq : c.send_queue with
        | nil =>
          rw [csl_noslot_empty n c outs h0 hsr hq]
          exact ⟨rfl, rfl, rfl⟩
        | cons r rest =>
          rw [csl_deq n c outs r rest h0 hsr hq]
          have h := hslot { c with send_queue := rest, send_request := some r }
            outs r h0 rfl
          simpa using h

theorem conn_send_loop_debt (fuel : Nat) :
    ∀ (c : Conn) (outs : List SendOutcome),
      (conn_send_loop fuel c outs).1.outstanding
          - connAccount (conn_send_loop fuel c outs).1
        = c.outstanding - connAccount c := by
  induction fuel with
  | zero => exact fun c outs => rfl
  | succ n ih =>
    have hslot : ∀ (c : Conn) (outs : List SendOutcome) (r : Request),
        ¬ c.outstanding = 0 → c.send_request = some r →
        (conn_send_loop (n + 1) c outs).1.outstanding
            - connAccount (conn_send_loop (n + 1) c outs).1
          = c.outstanding - connAccount c := by
      intro c outs r h0 hsr
      by_cases hlen : r.send_len = 0
      · rw [csl_slot_len0 n c outs r h0 hsr hlen,
          ih (spdk_jsonrpc_free_request { c with send_request := none }) outs]
        simp [spdk_jsonrpc_free_request, connAccount, hsr]
        omega
      · cases outs with
        | nil => rw [csl_slot_empty n c r h0 hsr hlen]
        | cons o t =>
          cases o with
          | transient => rw [csl_slot_transient n c r t h0 hsr hlen]
          | fatal => rw [csl_slot_fatal n c r t h0 hsr hlen]
          | accepted k =>
            by_cases hk : r.send_len - k = 0
            · rw [csl_slot_accept_full n c r k t h0 hsr hlen hk]
              rw [show ((conn_send_loop n
                  (spdk_jsonrpc_free_request { c with send_request := none })
                  t).1,
                  (conn_send_loop n
                    (spdk_jsonrpc_free_request { c with send_request := none })
                    t).2.1,
                  (r.send_buf.drop r.send_offset).take k
                    ++ (conn_send_loop n
                        (spdk_jsonrpc_free_request
                          { c with send_request := none }) t).2.2).1
                = (conn_send_loop n
                    (spdk_jsonrpc_free_request { c with send_request := none })
                    t).1 from rfl]
              rw [ih (spdk_jsonrpc_free_request { c with send_request := none })
                t]
              simp [spdk_jsonrpc_free_request, connAccount, hsr]
              omega
            · rw [csl_slot_accept_keep n c r k t h0 hsr hlen hk]
              simp [connAccount, hsr]
    intro c outs
    by_cases h0 : c.outstanding = 0
    · rw [conn_send_loop_outstanding_zero (n + 1) c outs h0]
    · cases hsr : c.send_request with
      | some r => exact hslot c outs r h0 hsr
      | none =>
        cases hq : c.send_queue with
        | nil => rw [csl_noslot_empty n c outs h0 hsr hq]
        | cons r rest =>
          rw [csl_deq n c outs r rest h0 hsr hq]
          rw [hslot { c with send_queue := rest, send_request := some r }
            outs r h0 rfl]
          simp [connAccount, hsr, hq]

theorem conn_send_loop_pending (fuel : Nat) :
    ∀ (c : Conn) (outs : List SendOutcome), Conn.wfReqs c →
      ((conn_send_loop fuel c outs).2.2
          ++ Conn.pending (conn_send_loop fuel c outs).1 = Conn.pending c) ∧
      Conn.wfReqs (conn_send_loop fuel c outs).1 := by
  induction fuel with
  | zero => exact fun c outs hwf => ⟨rfl, hwf⟩
  | succ n ih =>
    have hslot : ∀ (c : Conn) (outs : List SendOutcome) (r : Request),
        ¬ c.outstanding = 0 → c.send_request = some r → Conn.wfReqs c →
        ((conn_send_loop (n + 1) c outs).2.2
            ++ Conn.pending (conn_send_loop (n + 1) c outs).1
          = Conn.pending c) ∧
        Conn.wfReqs (conn_send_loop (n + 1) c outs).1 := by
      intro c outs r h0 hsr hwf
      have hwfr : Request.wf r := wfReqs_slot c r hwf hsr
      by_cases hlen : r.send_len = 0
      · have hrest : Request.rest r = [] := by
          have := Request.rest_length r hwfr
          rw [hlen] at this
          exact List.length_eq_zero.mp this
        rw [csl_slot_len0 n c outs r h0 hsr hlen]
        have h := ih (spdk_jsonrpc_free_request { c with send_request := none })
          outs (wfReqs_free_slot c hwf)
        refine ⟨?_, h.2⟩
        rw [h.1]
        simp [Conn.pending, hsr, hrest, spdk_jsonrpc_free_request]
      · cases outs with
        | nil =>
          rw [csl_slot_empty n c r h0 hsr hlen]
          exact ⟨rfl, hwf⟩
        | cons o t =>
          cases o with
          | transient =>
            rw [csl_slot_transient n c r t h0 hsr hlen]
            exact ⟨rfl, hwf⟩
          | fatal =>
            rw [csl_slot_fatal n c r t h0 hsr hlen]
            exact ⟨rfl, hwf⟩
          | accepted k =>
            by_cases hk : r.send_len - k = 0
            · rw [csl_slot_accept_full n c r k t h0 hsr hlen hk]
              have h := ih
                (spdk_jsonrpc_free_request { c with send_request := none }) t
                (wfReqs_free_slot c hwf)
              refine ⟨?_, h.2⟩
              have hseg : (r.send_buf.drop r.send_offset).take k
                  = Request.rest r := by
                apply List.take_of_length_le
                have hlen2 := Request.rest_length r hwfr
                unfold Request.rest at hlen2
                omega
              rw [List.append_assoc, h.1, hseg]
              simp [Conn.pending, hsr, spdk_jsonrpc_free_request]
            · rw [csl_slot_accept_keep n c r k t h0 hsr hlen hk]
              constructor
              · have hdrop : Request.rest
                    { r with
                        send_offset := r.send_offset + k
                        send_len := r.send_len - k }
                    = (Request.rest r).drop k := by
                  unfold Request.rest
                  exact (List.drop_drop k r.send_offset r.send_buf).symm
                simp only [Conn.pending, hsr, hdrop]
                rw [← List.append_assoc]
                rw [show (r.send_buf.drop r.send_offset).take k
                  = (Request.rest r).take k from rfl]
                rw [List.take_append_drop]
              · refine ⟨hwf.1, ?_⟩
                show Request.wf _
                unfold Request.wf
                unfold Request.wf at hwfr
                simp
                omega
    intro c outs hwf
    by_cases h0 : c.outstanding = 0
    · rw [conn_send_loop_outstanding_zero (n + 1) c outs h0]
      exact ⟨rfl, hwf⟩
    · cases hsr : c.send_request with
      | some r => exact hslot c outs r h0 hsr hwf
      | none =>
        cases hq : c.send_queue with
        | nil =>
          rw [csl_noslot_empty n c outs h0 hsr hq]
          exact ⟨rfl, hwf⟩
        | cons r rest =>
          rw [csl_deq n c outs r rest h0 hsr hq]
          have hwf1 : Conn.wfReqs
              { c with send_queue := rest, send_request := some r } := by
            constructor
            · intro x hx
              exact hwf.1 x (by rw [hq]; exact List.mem_cons_of_mem r hx)
            · show Request.wf r
              exact hwf.1 r (by rw [hq]; exact List.mem_cons_self r rest)
          have h := hslot { c with send_queue := rest, send_request := some r }
            outs r h0 rfl hwf1
          refine ⟨?_, h.2⟩
          rw [h.1]
          simp [Conn.pending, hsr, hq]

/-- Witness for `recv_single_dispatch_per_step` at the two-frame input. -/
theorem recv_single_dispatch_per_step_witness :
    (spdk_jsonrpc_server_conn_recv parseNl (conn_init 4)
        (RecvOutcome.data [1, 10, 2, 10])).1.recv_buf = [2, 10] := by
  have h := (recv_single_dispatch_per_step parseNl (conn_init 4)
    (RecvOutcome.data [1, 10, 2, 10])).2.1 [1, 10, 2, 10] rfl (by decide) 2
    (by decide) (by decide)
  simpa using h

theorem conn_send_loop_idle (fuel : Nat) (c : Conn) (outs : List SendOutcome)
    (hsr : c.send_request = none) (hq : c.send_queue = []) :
    conn_send_loop fuel c outs = (c, 0, []) := by
  cases fuel with
  | zero => rfl
  | succ n =>
    by_cases h0 : c.outstanding = 0
    · exact conn_send_loop_outstanding_zero _ c outs h0
    · exact csl_noslot_empty n c outs h0 hsr hq

theorem conn_send_succ_fuel (c : Conn) (outs : List SendOutcome) :
    spdk_jsonrpc_server_conn_send c outs
      = conn_send_loop (c.send_queue.length + 1 + 1) c outs := rfl

theorem run_events_submit (c : Conn) (r : Request) (evs : List SEvent) :
    run_events c (SEvent.submit r :: evs)
      = run_events (spdk_jsonrpc_server_send_response c r) evs := rfl

theorem run_events_sendStep (c : Conn) (outs : List SendOutcome)
    (evs : List SEvent) :
    run_events c (SEvent.sendStep outs :: evs)
      = ((run_events (spdk_jsonrpc_server_conn_send c outs).1 evs).1,
         (spdk_jsonrpc_server_conn_send c outs).2.2
           ++ (run_events (spdk_jsonrpc_server_conn_send c outs).1 evs).2) := by
  show (match spdk_jsonrpc_server_conn_send c outs with
    | (c1, _, out) =>
      match run_events c1 evs with
      | (c2, wire) => (c2, out ++ wire)) = _
  rcases hc : spdk_jsonrpc_server_conn_send c outs with ⟨c1, rc1, out⟩
  rcases hr : run_events c1 evs with ⟨c2, wire⟩
  simp [hc, hr]

theorem submittedReqs_sendSteps (steps : List (List SendOutcome)) :
    submittedReqs (steps.map SEvent.sendStep) = [] := by
  induction steps with
  | nil => rfl
  | cons s steps ih => simpa [submittedReqs] using ih

theorem run_events_wire (evs : List SEvent) :
    ∀ (c : Conn), Conn.wfReqs c →
      (∀ r ∈ submittedReqs evs,
        r.send_offset = 0 ∧ r.send_len = r.send_buf.length) →
      ((run_events c evs).2 ++ Conn.pending (run_events c evs).1
          = Conn.pending c
            ++ ((submittedReqs evs).map Request.send_buf).flatten) ∧
      Conn.wfReqs (run_events c evs).1 := by
  induction evs with
  | nil =>
    intro c hwf _
    exact ⟨by simp [run_events, submittedReqs], hwf⟩
  | cons e evs ih =>
    intro c hwf hsub
    cases e with
    | submit r =>
      have hr := hsub r (by simp [submittedReqs])
      have hwf1 : Conn.wfReqs (spdk_jsonrpc_server_send_response c r) := by
        constructor
        · intro x hx
          have hx2 : x ∈ c.send_queue ++ [r] := hx
          rcases List.mem_append.mp hx2 with h | h
          · exact hwf.1 x h
          · have hxr : x = r := by simpa using h
            subst hxr
            unfold Request.wf
            omega
        · exact hwf.2
      have h := ih (spdk_jsonrpc_server_send_response c r) hwf1
        (fun x hx => hsub x (List.mem_cons_of_mem r hx))
      refine ⟨?_, h.2⟩
      rw [run_events_submit, h.1]
      have hpend : Conn.pending (spdk_jsonrpc_server_send_response c r)
          = Conn.pending c ++ Request.rest r := by
        simp [Conn.pending, spdk_jsonrpc_server_send_response,
          List.append_assoc]
      have hrrest : Request.rest r = r.send_buf := by
        unfold Request.rest
        rw [hr.1, List.drop_zero]
      rw [hpend, hrrest]
      simp [submittedReqs, List.append_assoc]
    | sendStep outs =>
      have hsend := conn_send_loop_pending (c.send_queue.length + 2) c outs hwf
      have h := ih (spdk_jsonrpc_server_conn_send c outs).1 hsend.2
        (fun x hx => hsub x hx)
      refine ⟨?_, h.2⟩
      rw [run_events_sendStep]
      show ((spdk_jsonrpc_server_conn_send c outs).2.2
          ++ (run_events (spdk_jsonrpc_server_conn_send c outs).1 evs).2)
          ++ _ = _
      rw [List.append_assoc, h.1, ← List.append_assoc]
      rw [show (spdk_jsonrpc_server_conn_send c outs).2.2
          ++ Conn.pending (spdk_jsonrpc_server_conn_send c outs).1
        = Conn.pending c from hsend.1]
      rfl

/-- C4 (confirmed): starting from a connection with an empty outbound queue
and empty in-flight slot, for any interleaving of response submissions and
reactor send steps, the bytes handed to the transport followed by the bytes
the connection still owes equal exactly the concatenation of the submitted
response payloads in submission order — responses are transmitted in FIFO
order with at most one in-flight request, even when later submissions race
with the transmission of earlier ones. -/
theorem responses_fifo_order (c0 : Conn) (evs : List SEvent)
    (hq : c0.send_queue = []) (hsr : c0.send_request = none)
    (hsub : ∀ r ∈ submittedReqs evs,
      r.send_offset = 0 ∧ r.send_len = r.send_buf.length) :
    (run_events c0 evs).2 ++ Conn.pending (run_events c0 evs).1
      = ((submittedReqs evs).map Request.send_buf).flatten := by
  have hwf : Conn.wfReqs c0 := by
    constructor
    · intro x hx
      rw [hq] at hx
      cases hx
    · rw [hsr]
      exact trivial
  have h := run_events_wire evs c0 hwf hsub
  rw [h.1]
  simp [Conn.pending, hq, hsr]

/-- Witness for `responses_fifo_order`: three payloads submitted in order
A = [1,2], B = [3], C = [4,5], with B and C submitted while A is partially
transmitted; the wire output is the in-order concatenation. -/
theorem responses_fifo_order_witness :
    (run_events ⟨false, 7, [], 5, [], none⟩
        [SEvent.submit ⟨[1, 2], 0, 2⟩,
         SEvent.sendStep [SendOutcome.accepted 1],
         SEvent.submit ⟨[3], 0, 1⟩, SEvent.submit ⟨[4, 5], 0, 2⟩,
         SEvent.sendStep [SendOutcome.accepted 1, SendOutcome.accepted 1,
           SendOutcome.accepted 2]]).2
      ++ Conn.pending (run_events ⟨false, 7, [], 5, [], none⟩
        [SEvent.submit ⟨[1, 2], 0, 2⟩,
         SEvent.sendStep [SendOutcome.accepted 1],
         SEvent.submit ⟨[3], 0, 1⟩, SEvent.submit ⟨[4, 5], 0, 2⟩,
         SEvent.sendStep [SendOutcome.accepted 1, SendOutcome.accepted 1,
           SendOutcome.accepted 2]]).1
      = [1, 2, 3, 4, 5] := by
  have h := responses_fifo_order ⟨false, 7, [], 5, [], none⟩
    [SEvent.submit ⟨[1, 2], 0, 2⟩,
     SEvent.sendStep [SendOutcome.accepted 1],
     SEvent.submit ⟨[3], 0, 1⟩, SEvent.submit ⟨[4, 5], 0, 2⟩,
     SEvent.sendStep [SendOutcome.accepted 1, SendOutcome.accepted 1,
       SendOutcome.accepted 2]] rfl rfl (by decide)
  exact h.trans (by decide)

/-- C5 (confirmed): for a response larger than what one send call accepts,
each partial send of `k` bytes advances the cursor by `k` and decreases the
remaining length by `k` while the request stays in the in-flight slot; the
request is released (slot cleared, counter decremented) exactly when the
remaining length reaches zero; and across arbitrarily many poll steps the
concatenation of the transmitted segments together with what is still owed
is exactly the original remaining payload — no byte lost, none
duplicated. -/
theorem partial_send_no_loss (c : Conn) (r : Request) (k : Nat)
    (hwfr : Request.wf r) (hsr : c.send_request = some r)
    (h0 : ¬ c.outstanding = 0) (hkpos : 0 < k) :
    (k < r.send_len →
      spdk_jsonrpc_server_conn_send c [SendOutcome.accepted k]
        = ({ c with
              send_request := some
                { r with
                    send_offset := r.send_offset + k
                    send_len := r.send_len - k } }, 0,
           (Request.rest r).take k)) ∧
    (k = r.send_len → c.send_queue = [] →
      spdk_jsonrpc_server_conn_send c [SendOutcome.accepted k]
        = (spdk_jsonrpc_free_request { c with send_request := none }, 0,
           Request.rest r)) ∧
    (∀ steps : List (List SendOutcome),
      c.send_queue = [] →
      (run_events c (steps.map SEvent.sendStep)).2
          ++ Conn.pending (run_events c (steps.map SEvent.sendStep)).1
        = Request.rest r) := by
  refine ⟨?_, ?_, ?_⟩
  · intro hk
    have hlen : ¬ r.send_len = 0 := by omega
    have hk2 : ¬ r.send_len - k = 0 := by omega
    rw [conn_send_succ_fuel,
      csl_slot_accept_keep (c.send_queue.length + 1) c r k [] h0 hsr hlen
        hk2]
    rfl
  · intro hk hq
    have hlen : ¬ r.send_len = 0 := by omega
    have hk2 : r.send_len - k = 0 := by omega
    rw [conn_send_succ_fuel,
      csl_slot_accept_full (c.send_queue.length + 1) c r k [] h0 hsr hlen hk2,
      conn_send_loop_idle (c.send_queue.length + 1)
        (spdk_jsonrpc_free_request { c with send_request := none }) [] rfl hq]
    have hseg : (r.send_buf.drop r.send_offset).take k = Request.rest r := by
      apply List.take_of_length_le
      have h2 := Request.rest_length r hwfr
      unfold Request.rest at h2
      omega
    rw [hseg]
    simp
  · intro steps hq
    have hwf : Conn.wfReqs c := by
      constructor
      · intro x hx
        rw [hq] at hx
        cases hx
      · rw [hsr]
        exact hwfr
    have hsubnil : ∀ r2 ∈ submittedReqs (steps.map SEvent.sendStep),
        r2.send_offset = 0 ∧ r2.send_len = r2.send_buf.length := by
      rw [submittedReqs_sendSteps]
      intro r2 h2
      cases h2
    have h := run_events_wire (steps.map SEvent.sendStep) c hwf hsubnil
    rw [h.1, submittedReqs_sendSteps]
    simp [Conn.pending, hq, hsr]

/-- Witness for `partial_send_no_loss`: a 3-byte payload, the transport
accepting 2 bytes: the cursor advances to 2, one byte remains in flight. -/
theorem partial_send_no_loss_witness :
    spdk_jsonrpc_server_conn_send ⟨false, 6, [], 1, [], some ⟨[9, 8, 7], 0, 3⟩⟩
        [SendOutcome.accepted 2]
      = (⟨false, 6, [], 1, [], some ⟨[9, 8, 7], 2, 1⟩⟩, 0, [9, 8]) := by
  have h := (partial_send_no_loss ⟨false, 6, [], 1, [], some ⟨[9, 8, 7], 0, 3⟩⟩
    ⟨[9, 8, 7], 0, 3⟩ 2 rfl rfl (by decide) (by decide)).1 (by decide)
  exact h.trans (by decide)

/-- C8 counterexample: a would-block send outcome is not a complete no-op:
on a connection with one queued response and an empty in-flight slot, the
send step returns 0 but has moved the queued request into the in-flight
slot, so the queue and the in-flight slot are both changed. -/
theorem send_transient_dequeues :
    ((spdk_jsonrpc_server_conn_send ⟨false, 5, [], 1, [⟨[7, 8], 0, 2⟩], none⟩
        [SendOutcome.transient]).2.1 = 0) ∧
    ((spdk_jsonrpc_server_conn_send ⟨false, 5, [], 1, [⟨[7, 8], 0, 2⟩], none⟩
        [SendOutcome.transient]).1.send_queue = []) ∧
    ((spdk_jsonrpc_server_conn_send ⟨false, 5, [], 1, [⟨[7, 8], 0, 2⟩], none⟩
        [SendOutcome.transient]).1.send_request = some ⟨[7, 8], 0, 2⟩) ∧
    ¬ ((spdk_jsonrpc_server_conn_send ⟨false, 5, [], 1, [⟨[7, 8], 0, 2⟩], none⟩
        [SendOutcome.transient]).1
      = ⟨false, 5, [], 1, [⟨[7, 8], 0, 2⟩], none⟩) := by
  decide

theorem conn_send_loop_transient (fuel : Nat) (c : Conn)
    (hpos : Conn.posReqs c) :
    ((conn_send_loop fuel c [SendOutcome.transient]).2.1 = 0) ∧
    ((conn_send_loop fuel c [SendOutcome.transient]).2.2 = []) ∧
    ((conn_send_loop fuel c [SendOutcome.transient]).1.outstanding
      = c.outstanding) ∧
    (Conn.pending (conn_send_loop fuel c [SendOutcome.transient]).1
      = Conn.pending c) ∧
    (c.send_request.isSome = true →
      (conn_send_loop fuel c [SendOutcome.transient]).1 = c) := by
  cases fuel with
  | zero => exact ⟨rfl, rfl, rfl, rfl, fun _ => rfl⟩
  | succ n =>
    by_cases h0 : c.outstanding = 0
    · rw [conn_send_loop_outstanding_zero (n + 1) c _ h0]
      exact ⟨rfl, rfl, rfl, rfl, fun _ => rfl⟩
    · cases hsr : c.send_request with
      | some r =>
        have hlen : ¬ r.send_len = 0 := by
          have h2 := hpos.2
          rw [hsr] at h2
          omega
        rw [csl_slot_transient n c r [] h0 hsr hlen]
        exact ⟨rfl, rfl, rfl, rfl, fun _ => rfl⟩
      | none =>
        cases hq : c.send_queue with
        | nil =>
          rw [csl_noslot_empty n c _ h0 hsr hq]
          exact ⟨rfl, rfl, rfl, rfl, fun _ => rfl⟩
        | cons r rest =>
          have hlen : ¬ r.send_len = 0 := by
            have h2 := hpos.1 r (by rw [hq]; exact List.mem_cons_self r rest)
            omega
          rw [csl_deq n c _ r rest h0 hsr hq,
            csl_slot_transient n
              { c with send_queue := rest, send_request := some r } r [] h0
              rfl hlen]
          refine ⟨rfl, rfl, rfl, ?_, ?_⟩
          · simp [Conn.pending, hsr, hq]
          · intro hsome
            simp at hsome

/-- C8 as amended: a transient outcome (would-block or interrupted) makes
accept and receive complete no-ops returning success, and makes the send
step return success having transmitted nothing, with the closed flag,
socket handle, receive buffer, outstanding counter and pending outbound
byte stream all unchanged; the one state change the send path may make
before hitting the would-block result is moving the head of the outbound
queue into the empty in-flight slot (when a request was already in flight,
the send step changes nothing at all). -/
theorem transient_io_silent (s : Server) (parse : List Nat → Int) (c : Conn)
    (hpos : Conn.posReqs c) :
    (spdk_jsonrpc_server_accept s AcceptOutcome.transient = (s, 0)) ∧
    (spdk_jsonrpc_server_conn_recv parse c RecvOutcome.transient = (c, 0)) ∧
    ((spdk_jsonrpc_server_conn_send c [SendOutcome.transient]).2.1 = 0) ∧
    ((spdk_jsonrpc_server_conn_send c [SendOutcome.transient]).2.2 = []) ∧
    ((spdk_jsonrpc_server_conn_send c [SendOutcome.transient]).1.closed
      = c.closed) ∧
    ((spdk_jsonrpc_server_conn_send c [SendOutcome.transient]).1.sockfd
      = c.sockfd) ∧
    ((spdk_jsonrpc_server_conn_send c [SendOutcome.transient]).1.recv_buf
      = c.recv_buf) ∧
    ((spdk_jsonrpc_server_conn_send c [SendOutcome.transient]).1.outstanding
      = c.outstanding) ∧
    (Conn.pending (spdk_jsonrpc_server_conn_send c [SendOutcome.transient]).1
      = Conn.pending c) ∧
    (c.send_request.isSome = true →
      (spdk_jsonrpc_server_conn_send c [SendOutcome.transient]).1 = c) := by
  have hf := conn_send_loop_fields (c.send_queue.length + 2) c
    [SendOutcome.transient]
  have ht := conn_send_loop_transient (c.send_queue.length + 2) c hpos
  exact ⟨rfl, rfl, ht.1, ht.2.1, hf.1, hf.2.1, hf.2.2, ht.2.2.1, ht.2.2.2.1,
    ht.2.2.2.2⟩

/-- Witness for `transient_io_silent` at a connection with one queued
response. -/
theorem transient_io_silent_witness :
    (spdk_jsonrpc_server_conn_send ⟨false, 5, [], 1, [⟨[7, 8], 0, 2⟩], none⟩
        [SendOutcome.transient]).2.1 = 0 :=
  (transient_io_silent spdk_jsonrpc_server_listen parseNl
    ⟨false, 5, [], 1, [⟨[7, 8], 0, 2⟩], none⟩
    ⟨by decide, trivial⟩).2.2.1

theorem drain_requests_eq (q : List Request) :
    ∀ c : Conn, c.send_queue = q →
      drain_requests q.length c
        = { c with
              send_queue := []
              outstanding := c.outstanding - q.length } := by
  induction q with
  | nil =>
    intro c hq
    have h0 : drain_requests ([] : List Request).length c = c := rfl
    rw [h0]
    obtain ⟨cl, fd, rb, os, qq, sr⟩ := c
    simp only [Conn.mk.injEq] at hq ⊢
    simp_all
  | cons r rest ih =>
    intro c hq
    have hstep : drain_requests (r :: rest).length c
        = drain_requests rest.length
            (spdk_jsonrpc_free_request { c with send_queue := rest }) := by
      show drain_requests (rest.length + 1) c = _
      rw [drain_requests]
      rw [show spdk_jsonrpc_server_dequeue_request c
        = ({ c with send_queue := rest }, some r) from by
          simp [spdk_jsonrpc_server_dequeue_request, hq]]
    rw [hstep,
      ih (spdk_jsonrpc_free_request { c with send_queue := rest }) rfl]
    simp [spdk_jsonrpc_free_request]
    omega

theorem poll_drain_spec (c : Conn) :
    ((spdk_jsonrpc_server_poll_drain c).1.send_queue = []) ∧
    ((spdk_jsonrpc_server_poll_drain c).1.send_request = none) ∧
    ((spdk_jsonrpc_server_poll_drain c).1.closed = c.closed) ∧
    ((spdk_jsonrpc_server_poll_drain c).1.sockfd = c.sockfd) ∧
    ((spdk_jsonrpc_server_poll_drain c).1.recv_buf = c.recv_buf) ∧
    ((spdk_jsonrpc_server_poll_drain c).1.outstanding
      = c.outstanding - connAccount c) ∧
    ((spdk_jsonrpc_server_poll_drain c).2 = true ↔
      (spdk_jsonrpc_server_poll_drain c).1.outstanding = 0) := by
  unfold spdk_jsonrpc_server_poll_drain
  cases hsr : c.send_request with
  | none =>
    dsimp only
    rw [drain_requests_eq c.send_queue c rfl]
    refine ⟨rfl, hsr, rfl, rfl, rfl, ?_, ?_⟩
    · simp [connAccount, hsr]
    · simp
  | some r =>
    dsimp only
    rw [drain_requests_eq
      (spdk_jsonrpc_free_request { c with send_request := none }).send_queue
      (spdk_jsonrpc_free_request { c with send_request := none }) rfl]
    refine ⟨rfl, rfl, rfl, rfl, rfl, ?_, ?_⟩
    · simp [connAccount, hsr, spdk_jsonrpc_free_request]
      omega
    · simp

theorem conn_recv_skeleton (parse : List Nat → Int) (c : Conn)
    (out : RecvOutcome) :
    ((spdk_jsonrpc_server_conn_recv parse c out).1.send_queue
      = c.send_queue) ∧
    ((spdk_jsonrpc_server_conn_recv parse c out).1.send_request
      = c.send_request) ∧
    ((spdk_jsonrpc_server_conn_recv parse c out).1.outstanding = c.outstanding
      ∨ (spdk_jsonrpc_server_conn_recv parse c out).1.outstanding
          = c.outstanding + 1) := by
  cases out with
  | transient => exact ⟨rfl, rfl, Or.inl rfl⟩
  | fatal => exact ⟨rfl, rfl, Or.inl rfl⟩
  | data bytes =>
    by_cases h0 : bytes.length = 0
    · have hnil : bytes = [] := List.length_eq_zero.mp h0
      subst hnil
      rw [conn_recv_data_nil]
      exact ⟨rfl, rfl, Or.inl rfl⟩
    · rcases lt_trichotomy (parse (c.recv_buf ++ bytes)) 0 with hneg | hzero | hpos
      · rw [conn_recv_data_neg parse c bytes h0 hneg]
        exact ⟨rfl, rfl, Or.inl rfl⟩
      · rw [conn_recv_data_none parse c bytes h0 hzero]
        exact ⟨rfl, rfl, Or.inl rfl⟩
      · rw [conn_recv_data_pos parse c bytes h0 hpos]
        exact ⟨rfl, rfl, Or.inr rfl⟩

theorem cinv_step {s s' : CState} (hstep : ConnStep s s') (hinv : CInv s) :
    CInv s' := by
  cases hstep with
  | recv c g parse out =>
    have hs := conn_recv_skeleton parse c out
    unfold CInv at hinv ⊢
    dsimp only at hinv ⊢
    rw [hs.1, hs.2.1]
    rcases hs.2.2 with h | h <;> rw [h] <;>
      by_cases hb : c.send_request.isSome <;> simp [hb] at hinv ⊢ <;> omega
  | send c g outs =>
    have hd := conn_send_loop_debt (c.send_queue.length + 2) c outs
    unfold CInv at hinv ⊢
    dsimp only at hinv ⊢
    unfold spdk_jsonrpc_server_conn_send
    unfold connAccount at hd
    by_cases hb :
        (conn_send_loop (c.send_queue.length + 2) c outs).1.send_request.isSome <;>
      by_cases hb2 : c.send_request.isSome <;>
        simp [hb, hb2] at hd hinv ⊢ <;> omega
  | submit c g r h =>
    unfold CInv at hinv ⊢
    dsimp only at hinv ⊢
    by_cases hb : c.send_request.isSome <;>
      simp [hb, spdk_jsonrpc_server_send_response] at hinv ⊢ <;> omega
  | close c g =>
    have hc := conn_close_idempotent c
    unfold CInv at hinv ⊢
    dsimp only at hinv ⊢
    rw [hc.2.1, hc.2.2.1, hc.2.2.2.1]
    exact hinv
  | drain c g =>
    unfold poll_handle_closed
    by_cases hcl : c.closed = true
    · rw [if_pos hcl]
      have hs := poll_drain_spec c
      unfold CInv at hinv ⊢
      dsimp only at hinv ⊢
      rw [hs.1, hs.2.1, hs.2.2.2.2.2.1]
      unfold connAccount
      by_cases hb : c.send_request.isSome <;> simp [hb] at hinv ⊢ <;> omega
    · rw [if_neg hcl]
      exact hinv

theorem cinv_reachable {s : CState} (h : ConnReachable s) : CInv s := by
  induction h with
  | init fd => rfl
  | step _ hstep ih => exact cinv_step hstep ih

/-- C1 (confirmed): along every reachable per-connection history (accepts,
receive steps that dispatch frames, response submissions, send steps,
closes and poll drains) the outstanding-request counter never becomes
negative; and the poll loop reports a connection ready for reaping (moving
its slot back to the free list) only when it is closed, its outstanding
counter is zero, its outbound queue is empty and its in-flight slot is
NULL. -/
theorem outstanding_nonneg_reap_gated (st : CState)
    (h : ConnReachable st) :
    (0 ≤ st.conn.outstanding) ∧
    (∀ (c2 : Conn) (b : Bool), poll_handle_closed st.conn = (c2, b) →
      b = true →
      c2.closed = true ∧ c2.outstanding = 0 ∧ c2.send_queue = [] ∧
        c2.send_request = none) := by
  have hinv := cinv_reachable h
  unfold CInv at hinv
  constructor
  · rw [hinv]
    by_cases hb : st.conn.send_request.isSome <;> simp [hb] <;> omega
  · intro c2 b hpd hb
    subst hb
    unfold poll_handle_closed at hpd
    by_cases hcl : st.conn.closed = true
    · rw [if_pos hcl] at hpd
      have hs := poll_drain_spec st.conn
      have h1 : (spdk_jsonrpc_server_poll_drain st.conn).1 = c2 := by
        rw [hpd]
      have h2 : (spdk_jsonrpc_server_poll_drain st.conn).2 = true := by
        rw [hpd]
      have hout : c2.outstanding = 0 := by
        rw [← h1]
        exact hs.2.2.2.2.2.2.mp h2
      refine ⟨?_, hout, ?_, ?_⟩
      · rw [← h1, hs.2.2.1]
        exact hcl
      · rw [← h1]
        exact hs.1
      · rw [← h1]
        exact hs.2.1
    · rw [if_neg hcl] at hpd
      simp at hpd

/-- Witness for `outstanding_nonneg_reap_gated` at a freshly accepted
connection. -/
theorem outstanding_nonneg_reap_gated_witness :
    0 ≤ (conn_init 3).outstanding :=
  (outstanding_nonneg_reap_gated ⟨conn_init 3, 0⟩ (ConnReachable.init 3)).1

theorem sinv_listen : SInv spdk_jsonrpc_server_listen := by
  refine ⟨?_, ?_⟩
  · simp only [spdk_jsonrpc_server_listen, List.append_nil]
    exact List.Perm.refl _
  · intro i hi
    simp [spdk_jsonrpc_server_listen] at hi

theorem sinv_conn_update (s : Server) (i : ConnIdx) (c : Conn) (h : SInv s)
    (hc : i ∈ s.conns →
      ((c.closed = true → c.sockfd = -1) ∧
        (c.closed = false → 0 ≤ c.sockfd))) :
    SInv { s with conns_array := Function.update s.conns_array i c } := by
  refine ⟨h.1, ?_⟩
  intro j hj
  dsimp only at hj ⊢
  by_cases hij : j = i
  · subst hij
    rw [Function.update_same]
    exact hc hj
  · rw [Function.update_noteq hij]
    exact h.2 j hj

theorem sinv_nodup (s : Server) (h : SInv s) :
    (s.free_conns ++ s.conns).Nodup :=
  h.1.nodup_iff.mpr (List.nodup_finRange _)

theorem sinv_conns_nodup (s : Server) (h : SInv s) : s.conns.Nodup :=
  (List.nodup_append.mp (sinv_nodup s h)).2.1

theorem sinv_disjoint (s : Server) (h : SInv s) :
    ∀ i ∈ s.free_conns, i ∉ s.conns := by
  intro i hif hic
  exact (List.nodup_append.mp (sinv_nodup s h)).2.2 hif hic

theorem conn_recv_fields (parse : List Nat → Int) (c : Conn)
    (out : RecvOutcome) :
    ((spdk_jsonrpc_server_conn_recv parse c out).1.closed = c.closed) ∧
    ((spdk_jsonrpc_server_conn_recv parse c out).1.sockfd = c.sockfd) := by
  cases out with
  | transient => exact ⟨rfl, rfl⟩
  | fatal => exact ⟨rfl, rfl⟩
  | data bytes =>
    by_cases h0 : bytes.length = 0
    · have hnil : bytes = [] := List.length_eq_zero.mp h0
      subst hnil
      rw [conn_recv_data_nil]
      exact ⟨rfl, rfl⟩
    · rcases lt_trichotomy (parse (c.recv_buf ++ bytes)) 0 with hneg | hzero | hpos
      · rw [conn_recv_data_neg parse c bytes h0 hneg]
        exact ⟨rfl, rfl⟩
      · rw [conn_recv_data_none parse c bytes h0 hzero]
        exact ⟨rfl, rfl⟩
      · rw [conn_recv_data_pos parse c bytes h0 hpos]
        exact ⟨rfl, rfl⟩

theorem poll_conn_step_inv (parse : List Nat → Int) (c : Conn)
    (souts : List SendOutcome) (rout : RecvOutcome)
    (hcl : c.closed = false) (hfd : 0 ≤ c.sockfd) :
    ((poll_conn_step parse c souts rout).closed = true →
      (poll_conn_step parse c souts rout).sockfd = -1) ∧
    ((poll_conn_step parse c souts rout).closed = false →
      0 ≤ (poll_conn_step parse c souts rout).sockfd) := by
  unfold poll_conn_step
  have hf := conn_send_loop_fields (c.send_queue.length + 2) c souts
  rcases hs : spdk_jsonrpc_server_conn_send c souts with ⟨cs, rc1, out1⟩
  have hs2 : conn_send_loop (c.send_queue.length + 2) c souts
      = (cs, rc1, out1) := hs
  rw [hs2] at hf
  dsimp only at hf
  dsimp only
  by_cases hrc : rc1 = 0
  · rw [if_neg (by simp [hrc])]
    rcases hr : spdk_jsonrpc_server_conn_recv parse cs rout with ⟨c2, rc2⟩
    have hrf := conn_recv_fields parse cs rout
    rw [hr] at hrf
    dsimp only at hrf
    by_cases hrc2 : rc2 = 0
    · rw [if_neg (by simp [hrc2])]
      constructor
      · intro hcl2
        rw [hrf.1, hf.1, hcl] at hcl2
        cases hcl2
      · intro _
        rw [hrf.2, hf.2.1]
        exact hfd
    · rw [if_pos hrc2]
      constructor
      · intro _
        have hge : 0 ≤ c2.sockfd := by
          rw [hrf.2, hf.2.1]
          exact hfd
        simp [conn_close_eq, hge]
      · intro hfalse
        simp [conn_close_closed] at hfalse
  · rw [if_pos hrc]
    constructor
    · intro _
      have hge : 0 ≤ cs.sockfd := by
        rw [hf.2.1]
        exact hfd
      simp [conn_close_eq, hge]
    · intro hfalse
      simp [conn_close_closed] at hfalse

theorem accept_ok_nil (s : Server) (fd : Nat) (b : Bool)
    (hf : s.free_conns = []) :
    spdk_jsonrpc_server_accept s (AcceptOutcome.ok fd b) = (s, -1) := by
  unfold spdk_jsonrpc_server_accept
  rw [hf]

theorem accept_ok_cons (s : Server) (fd : Nat) (b : Bool) (i : ConnIdx)
    (rest : List ConnIdx) (hf : s.free_conns = i :: rest) :
    spdk_jsonrpc_server_accept s (AcceptOutcome.ok fd b)
      = if b then
          ({ s with
              conns_array := Function.update s.conns_array i (conn_init fd)
              free_conns := rest
              conns := s.conns ++ [i] }, 0)
        else
          ({ s with
              conns_array := Function.update s.conns_array i (conn_init fd) },
            -1) := by
  unfold spdk_jsonrpc_server_accept
  rw [hf]

theorem sinv_accept (s : Server) (out : AcceptOutcome) (h : SInv s) :
    SInv (spdk_jsonrpc_server_accept s out).1 := by
  cases out with
  | transient => exact h
  | fatal => exact h
  | ok fd b =>
    cases hf : s.free_conns with
    | nil =>
      rw [accept_ok_nil s fd b hf]
      exact h
    | cons i rest =>
      have hdisj : i ∉ s.conns :=
        sinv_disjoint s h i (by rw [hf]; exact List.mem_cons_self i rest)
      rw [accept_ok_cons s fd b i rest hf]
      cases b with
      | false =>
        rw [if_neg (by simp)]
        exact sinv_conn_update s i (conn_init fd) h
          (fun hi => absurd hi hdisj)
      | true =>
        rw [if_pos rfl]
        dsimp only
        constructor
        · dsimp only
          have hp := h.1
          rw [hf] at hp
          have h1 : (rest ++ (s.conns ++ [i])).Perm
              ((i :: rest) ++ s.conns) := by
            rw [← List.append_assoc]
            have h2 := List.perm_append_singleton i (rest ++ s.conns)
            simpa using h2
          exact h1.trans hp
        · intro j hj
          dsimp only at hj ⊢
          rcases List.mem_append.mp hj with hjc | hji
          · have hji2 : j ≠ i := fun he => hdisj (he ▸ hjc)
            rw [Function.update_noteq hji2]
            exact h.2 j hjc
          · have hji2 : j = i := by simpa using hji
            subst hji2
            rw [Function.update_same]
            constructor
            · intro hcl
              simp [conn_init] at hcl
            · intro _
              show (0 : Int) ≤ ((fd : Nat) : Int)
              omega

theorem sinv_remove (s : Server) (i : ConnIdx) (hi : i ∈ s.conns)
    (h : SInv s) : SInv (spdk_jsonrpc_server_conn_remove s i) := by
  have hnd := sinv_conns_nodup s h
  unfold spdk_jsonrpc_server_conn_remove
  dsimp only
  constructor
  · dsimp only
    have hp := h.1
    have h2 : (i :: s.conns.erase i).Perm s.conns :=
      (List.perm_cons_erase hi).symm
    have hm : (i :: (s.free_conns ++ s.conns.erase i)).Perm
        (s.free_conns ++ (i :: s.conns.erase i)) := List.perm_middle.symm
    have hap : (s.free_conns ++ (i :: s.conns.erase i)).Perm
        (s.free_conns ++ s.conns) := List.Perm.append_left _ h2
    exact (hm.trans hap).trans hp
  · intro j hj
    dsimp only at hj ⊢
    have hj2 := (List.Nodup.mem_erase_iff hnd).mp hj
    rw [Function.update_noteq hj2.1]
    exact h.2 j hj2.2

theorem poll_reap_cons (s : Server) (i : ConnIdx) (rest : List ConnIdx) :
    poll_reap s (i :: rest)
      = if (s.conns_array i).closed then
          (if (spdk_jsonrpc_server_poll_drain (s.conns_array i)).2 then
            poll_reap
              (spdk_jsonrpc_server_conn_remove
                { s with
                    conns_array := Function.update s.conns_array i
                      (spdk_jsonrpc_server_poll_drain (s.conns_array i)).1 } i)
              rest
          else
            poll_reap
              { s with
                  conns_array := Function.update s.conns_array i
                    (spdk_jsonrpc_server_poll_drain (s.conns_array i)).1 }
              rest)
        else poll_reap s rest := by
  rw [poll_reap]

theorem sinv_poll_reap (l : List ConnIdx) :
    ∀ (s : Server), SInv s → (∀ i ∈ l, i ∈ s.conns) → l.Nodup →
      SInv (poll_reap s l) := by
  induction l with
  | nil => exact fun s h _ _ => h
  | cons i rest ih =>
    intro s h hsub hnd
    rw [poll_reap_cons]
    have hi : i ∈ s.conns := hsub i (List.mem_cons_self i rest)
    by_cases hcl : (s.conns_array i).closed = true
    · rw [if_pos hcl]
      have hps := poll_drain_spec (s.conns_array i)
      have h1 : SInv { s with
          conns_array := Function.update s.conns_array i
            (spdk_jsonrpc_server_poll_drain (s.conns_array i)).1 } := by
        apply sinv_conn_update s i _ h
        intro _
        constructor
        · intro _
          rw [hps.2.2.2.1]
          exact (h.2 i hi).1 hcl
        · intro hfalse
          rw [hps.2.2.1] at hfalse
          rw [hfalse] at hcl
          cases hcl
      by_cases hrm : (spdk_jsonrpc_server_poll_drain (s.conns_array i)).2
        = true
      · rw [if_pos hrm]
        have h2 := sinv_remove
          { s with
              conns_array := Function.update s.conns_array i
                (spdk_jsonrpc_server_poll_drain (s.conns_array i)).1 } i hi h1
        refine ih _ h2 ?_ (List.nodup_cons.mp hnd).2
        intro j hj
        have hji : j ≠ i := by
          intro he
          subst he
          exact (List.nodup_cons.mp hnd).1 hj
        have hjc : j ∈ s.conns := hsub j (List.mem_cons_of_mem i hj)
        exact (List.Nodup.mem_erase_iff (sinv_conns_nodup s h)).mpr ⟨hji, hjc⟩
      · rw [if_neg hrm]
        exact ih _ h1 (fun j hj => hsub j (List.mem_cons_of_mem i hj))
          (List.nodup_cons.mp hnd).2
    · rw [if_neg hcl]
      exact ih _ h (fun j hj => hsub j (List.mem_cons_of_mem i hj))
        (List.nodup_cons.mp hnd).2

theorem poll_io_cons (parse : List Nat → Int)
    (souts : ConnIdx → List SendOutcome) (routs : ConnIdx → RecvOutcome)
    (s : Server) (i : ConnIdx) (rest : List ConnIdx) :
    poll_io parse souts routs s (i :: rest)
      = if (s.conns_array i).closed then poll_io parse souts routs s rest
        else
          ((poll_io parse souts routs
              { s with
                  conns_array := Function.update s.conns_array i
                    (poll_conn_step parse (s.conns_array i) (souts i)
                      (routs i)) }
              rest).1,
           (i, s.conns_array i)
             :: (poll_io parse souts routs
                  { s with
                      conns_array := Function.update s.conns_array i
                        (poll_conn_step parse (s.conns_array i) (souts i)
                          (routs i)) }
                  rest).2) := by
  rw [poll_io]

theorem poll_io_spec (parse : List Nat → Int)
    (souts : ConnIdx → List SendOutcome) (routs : ConnIdx → RecvOutcome)
    (l : List ConnIdx) :
    ∀ (s : Server), SInv s → (∀ i ∈ l, i ∈ s.conns) →
      SInv (poll_io parse souts routs s l).1 ∧
      (∀ p ∈ (poll_io parse souts routs s l).2,
        p.2.closed = false ∧ 0 ≤ p.2.sockfd) := by
  induction l with
  | nil =>
    intro s h _
    exact ⟨h, by intro p hp; simp [poll_io] at hp⟩
  | cons i rest ih =>
    intro s h hsub
    rw [poll_io_cons]
    by_cases hcl : (s.conns_array i).closed = true
    · rw [if_pos hcl]
      exact ih s h (fun j hj => hsub j (List.mem_cons_of_mem i hj))
    · rw [if_neg hcl]
      have hi : i ∈ s.conns := hsub i (List.mem_cons_self i rest)
      have hclf : (s.conns_array i).closed = false := by
        revert hcl
        cases (s.conns_array i).closed <;> simp
      have hfd : 0 ≤ (s.conns_array i).sockfd := (h.2 i hi).2 hclf
      have hstep := poll_conn_step_inv parse (s.conns_array i) (souts i)
        (routs i) hclf hfd
      have h1 : SInv { s with
          conns_array := Function.update s.conns_array i
            (poll_conn_step parse (s.conns_array i) (souts i) (routs i)) } :=
        sinv_conn_update s i _ h (fun _ => hstep)
      have hrec := ih _ h1 (fun j hj => hsub j (List.mem_cons_of_mem i hj))
      refine ⟨hrec.1, ?_⟩
      intro p hp
      rcases List.mem_cons.mp hp with he | hp2
      · subst he
        exact ⟨hclf, hfd⟩
      · exact hrec.2 p hp2

theorem sinv_poll (s : Server) (aout : AcceptOutcome)
    (parse : List Nat → Int) (souts : ConnIdx → List SendOutcome)
    (routs : ConnIdx → RecvOutcome) (h : SInv s) :
    SInv (spdk_jsonrpc_server_poll s aout parse souts routs).1 ∧
    (∀ p ∈ (spdk_jsonrpc_server_poll s aout parse souts routs).2,
      p.2.closed = false ∧ 0 ≤ p.2.sockfd) := by
  unfold spdk_jsonrpc_server_poll
  dsimp only
  have h1 := sinv_poll_reap s.conns s h (fun i hi => hi)
    (sinv_conns_nodup s h)
  have h2 : SInv (if (poll_reap s s.conns).free_conns.isEmpty
      then poll_reap s s.conns
      else (spdk_jsonrpc_server_accept (poll_reap s s.conns) aout).1) := by
    by_cases he : (poll_reap s s.conns).free_conns.isEmpty
    · rw [if_pos he]
      exact h1
    · rw [if_neg he]
      exact sinv_accept _ aout h1
  exact poll_io_spec parse souts routs _ _ h2 (fun i hi => hi)

theorem sinv_step {s s' : Server} (hstep : ServerStep s s') (h : SInv s) :
    SInv s' := by
  cases hstep with
  | accept out => exact sinv_accept s out h
  | close i =>
    apply sinv_conn_update s i _ h
    intro hi
    have hold := h.2 i hi
    constructor
    · intro _
      by_cases hfd : 0 ≤ (s.conns_array i).sockfd
      · simp [conn_close_eq, hfd]
      · have hm1 : (s.conns_array i).sockfd = -1 := by
          cases hb : (s.conns_array i).closed
          · exact absurd (hold.2 hb) hfd
          · exact hold.1 hb
        simp [conn_close_eq, hfd, hm1]
    · intro hfalse
      simp [conn_close_closed] at hfalse
  | submit i r =>
    apply sinv_conn_update s i _ h
    intro hi
    exact h.2 i hi
  | poll aout parse souts routs =>
    exact (sinv_poll s aout parse souts routs h).1

theorem sinv_reachable {s : Server} (h : ServerReachable s) : SInv s := by
  induction h with
  | listen => exact sinv_listen
  | step _ hstep ih => exact sinv_step hstep ih

/-- C2 (confirmed): in every server state reachable from construction by
accepts, closes, response submissions and poll steps (which include the
reap of closed quiescent connections), every one of the
`SPDK_JSONRPC_MAX_CONNS` slots is on exactly one of the free list and the
active list, the two lists together carry no duplicates, and
free-slot-count plus active-slot-count equals the pool capacity. -/
theorem pool_partition (s : Server) (h : ServerReachable s) :
    (∀ i : ConnIdx, i ∈ s.free_conns ↔ i ∉ s.conns) ∧
    ((s.free_conns ++ s.conns).Nodup) ∧
    (s.free_conns.length + s.conns.length = SPDK_JSONRPC_MAX_CONNS) := by
  have hp := (sinv_reachable h).1
  have hnd : (s.free_conns ++ s.conns).Nodup :=
    hp.nodup_iff.mpr (List.nodup_finRange _)
  refine ⟨?_, hnd, ?_⟩
  · intro i
    have hmem : i ∈ s.free_conns ++ s.conns :=
      hp.mem_iff.mpr (List.mem_finRange i)
    rw [List.mem_append] at hmem
    have hdisj := (List.nodup_append.mp hnd).2.2
    constructor
    · intro hf hc
      exact hdisj hf hc
    · intro hnc
      rcases hmem with hx | hx
      · exact hx
      · exact absurd hx hnc
  · have hlen := hp.length_eq
    simpa [List.length_append, List.length_finRange] using hlen

/-- Witness for `pool_partition` at the freshly constructed server. -/
theorem pool_partition_witness :
    (∀ i : ConnIdx,
      i ∈ spdk_jsonrpc_server_listen.free_conns ↔
        i ∉ spdk_jsonrpc_server_listen.conns) ∧
    ((spdk_jsonrpc_server_listen.free_conns
        ++ spdk_jsonrpc_server_listen.conns).Nodup) ∧
    (spdk_jsonrpc_server_listen.free_conns.length
        + spdk_jsonrpc_server_listen.conns.length
      = SPDK_JSONRPC_MAX_CONNS) :=
  pool_partition spdk_jsonrpc_server_listen ServerReachable.listen

/-- C10 (confirmed): in any poll step on a reachable server, every
connection on which a send or receive socket call is attempted is
non-closed at that moment and its socket handle is valid (non-negative);
in particular no socket operation is ever issued on the invalid sentinel
handle -1, and closed connections are only drained and reaped, never
given I/O. -/
theorem closed_conns_skipped (s : Server) (h : ServerReachable s)
    (aout : AcceptOutcome) (parse : List Nat → Int)
    (souts : ConnIdx → List SendOutcome) (routs : ConnIdx → RecvOutcome) :
    ∀ p ∈ (spdk_jsonrpc_server_poll s aout parse souts routs).2,
      p.2.closed = false ∧ 0 ≤ p.2.sockfd ∧ ¬ p.2.sockfd = -1 := by
  intro p hp
  have h2 := (sinv_poll s aout parse souts routs (sinv_reachable h)).2 p hp
  refine ⟨h2.1, h2.2, ?_⟩
  have := h2.2
  omega

/-- Witness for `closed_conns_skipped`: a server with one accepted
connection polled with neutral transport oracles; the single touched
connection is open with socket 5. -/
theorem closed_conns_skipped_witness :
    (conn_init 5).closed = false ∧ 0 ≤ (conn_init 5).sockfd ∧
      ¬ (conn_init 5).sockfd = -1 :=
  closed_conns_skipped
    (spdk_jsonrpc_server_accept spdk_jsonrpc_server_listen
      (AcceptOutcome.ok 5 true)).1
    (ServerReachable.step ServerReachable.listen
      (ServerStep.accept spdk_jsonrpc_server_listen (AcceptOutcome.ok 5 true)))
    AcceptOutcome.transient parseNl (fun _ => [])
    (fun _ => RecvOutcome.transient) (idx0, conn_init 5) (by decide)

end Spdk
